import Mathlib

/-!
Verification of the laravel-reductor ML pipeline against its specification.

Each Python module relevant to the claims is shallowly embedded as Lean
definitions: pure string/regex processing becomes explicit recursive
functions on character lists, float arithmetic becomes exact arithmetic
over ℚ or ℝ, fallible code returns Except, and the stateful
fit/transform protocol of the vectorizers becomes explicit state passing.
Regex scanning is embedded operationally: each scanner walks the input
left to right exactly as the corresponding Python pattern does
(leftmost match, greedy repetition, non-overlapping continuation).
Scanners take a fuel argument instantiated with the input length; every
step of the Python scan consumes at least one character, so this fuel is
always sufficient.
-/

namespace Reductor

set_option maxRecDepth 8000

/-! ## src/ml/core/tokenizer.py -/

/-- Python `\w` on ASCII input: letters, digits, underscore. -/
def isWordChar (c : Char) : Bool :=
  c.isAlpha || c.isDigit || c == '_'

/-- Python `\s` on ASCII input. -/
def isSpaceChar (c : Char) : Bool :=
  c == ' ' || c == '\t' || c == '\n' || c == '\r' || c == '\x0b' || c == '\x0c'

/-- ASCII `[a-z]` as used by the camelCase regex. -/
def isAsciiLower (c : Char) : Bool := 'a' ≤ c && c ≤ 'z'

/-- ASCII `[A-Z]` as used by the camelCase regex. -/
def isAsciiUpper (c : Char) : Bool := 'A' ≤ c && c ≤ 'Z'

/-- Drop characters up to (but excluding) the next newline: the effect of
one match of `//.*?$` or `#.*?$` in MULTILINE mode. -/
def dropLine : List Char → List Char
  | [] => []
  | c :: rest => if c = '\n' then c :: rest else dropLine rest

theorem dropLine_length_le (l : List Char) : (dropLine l).length ≤ l.length := by
  induction l with
  | nil => simp [dropLine]
  | cons c rest ih =>
    simp only [dropLine]
    split
    · simp
    · exact Nat.le_succ_of_le ih

/-- `re.sub(r'//.*?$', '', text, flags=re.MULTILINE)`: at each position a
match begins iff the next two characters are `//`; the non-greedy `.*?$`
must still extend to the end of the line, so the match deletes up to the
next newline. (Fuel-based structural recursion; every step consumes at
least one character, so fuel equal to the input length suffices.) -/
def removeLineComments : Nat → List Char → List Char
  | 0, l => l
  | _, [] => []
  | _ + 1, [c] => [c]
  | fuel + 1, c :: d :: rest2 =>
    if c = '/' ∧ d = '/' then removeLineComments fuel (dropLine rest2)
    else c :: removeLineComments fuel (d :: rest2)

/-- Remainder of the input after the first `*/`, if any (the non-greedy
body of `/\*.*?\*/`). -/
def findBlockClose : List Char → Option (List Char)
  | [] => none
  | [_] => none
  | c :: d :: rest2 =>
    if c = '*' ∧ d = '/' then some rest2
    else findBlockClose (d :: rest2)

theorem findBlockClose_length_le (l : List Char) (rem : List Char)
    (h : findBlockClose l = some rem) : rem.length ≤ l.length := by
  induction l using findBlockClose.induct with
  | case1 => simp [findBlockClose] at h
  | case2 => simp [findBlockClose] at h
  | case3 c d rest2 hcd =>
    rw [findBlockClose, if_pos hcd] at h
    cases h
    simp [Nat.le_succ_of_le, Nat.le_succ]
  | case4 c d rest2 hcd ih =>
    rw [findBlockClose, if_neg hcd] at h
    exact Nat.le_succ_of_le (ih h)

/-- `re.sub(r'/\*.*?\*/', '', text, flags=re.DOTALL)`: a match begins at
`/*` provided a closing `*/` exists later; otherwise the scan advances one
character. (Fuel-based; fuel equal to the input length suffices.) -/
def removeBlockComments : Nat → List Char → List Char
  | 0, l => l
  | _, [] => []
  | _ + 1, [c] => [c]
  | fuel + 1, c :: d :: rest2 =>
    if c = '/' ∧ d = '*' then
      match findBlockClose rest2 with
      | some rem => removeBlockComments fuel rem
      | none => c :: removeBlockComments fuel (d :: rest2)
    else c :: removeBlockComments fuel (d :: rest2)

/-- `re.sub(r'#.*?$', '', text, flags=re.MULTILINE)`. (Fuel-based; fuel
equal to the input length suffices.) -/
def removeHashComments : Nat → List Char → List Char
  | 0, l => l
  | _, [] => []
  | fuel + 1, c :: rest =>
    if c = '#' then removeHashComments fuel (dropLine rest)
    else c :: removeHashComments fuel rest

/-- `PHPTokenizer._remove_comments`: single-line, then block, then
shell-style comments. -/
def removeComments (text : List Char) : List Char :=
  let t1 := removeLineComments text.length text
  let t2 := removeBlockComments t1.length t1
  removeHashComments t2.length t2

/-- `re.findall(kw + r'\s+(\w+)', text)` for a literal keyword `kw`
(used with `function` and `class`): at each position, match the keyword,
at least one whitespace character, then capture the maximal nonempty
word-character run; on success the scan resumes after the match,
otherwise it advances one character. -/
def scanDecl (kw : List Char) : Nat → List Char → List (List Char)
  | 0, _ => []
  | _, [] => []
  | fuel + 1, c :: rest =>
    if kw.isPrefixOf (c :: rest) then
      let after := (c :: rest).drop kw.length
      let ws := after.takeWhile isSpaceChar
      let afterWs := after.drop ws.length
      let name := afterWs.takeWhile isWordChar
      if ws ≠ [] ∧ name ≠ [] then
        name :: scanDecl kw fuel (afterWs.drop name.length)
      else
        scanDecl kw fuel rest
    else
      scanDecl kw fuel rest

/-- `re.match(r'.*Test(Case|Duplicate)?$', name)` succeeds exactly when
the name ends in `Test`, `TestCase`, or `TestDuplicate`. -/
def matchesTestClassName (name : List Char) : Bool :=
  ("Test".toList.isSuffixOf name) || ("TestCase".toList.isSuffixOf name)
    || ("TestDuplicate".toList.isSuffixOf name)

/-- `re.findall(r'->(\w+)\s*\(', text)`: arrow, captured nonempty word
run, optional whitespace, opening parenthesis. -/
def scanMethodCalls : Nat → List Char → List (List Char)
  | 0, _ => []
  | _, [] => []
  | fuel + 1, c :: rest =>
    if c = '-' then
      match rest with
      | d :: rest2 =>
        if d = '>' then
          let name := rest2.takeWhile isWordChar
          let afterName := rest2.drop name.length
          let ws := afterName.takeWhile isSpaceChar
          let afterWs := afterName.drop ws.length
          match afterWs with
          | '(' :: rem =>
            if name ≠ [] then name :: scanMethodCalls fuel rem
            else scanMethodCalls fuel rest
          | _ => scanMethodCalls fuel rest
        else scanMethodCalls fuel rest
      | [] => []
    else scanMethodCalls fuel rest

/-- Case-insensitive literal prefix test (ASCII lowering, as in
`re.IGNORECASE` over ASCII input). -/
def isPrefixOfCI (kw l : List Char) : Bool :=
  kw.isPrefixOf (l.map Char.toLower)

/-- `re.findall(r'assert\w*', text, re.IGNORECASE)`: whole matches (the
pattern has no group); the match keeps the original casing of the text. -/
def scanAssertions : Nat → List Char → List (List Char)
  | 0, _ => []
  | _, [] => []
  | fuel + 1, c :: rest =>
    if isPrefixOfCI "assert".toList (c :: rest) then
      let tail6 := (c :: rest).drop 6
      let run := tail6.takeWhile isWordChar
      ((c :: rest).take 6 ++ run) :: scanAssertions fuel (tail6.drop run.length)
    else scanAssertions fuel rest

/-- The alternation of
`r'\b(test|expect|mock|stub|spy|fake|fixture|teardown|setup)\w*\b'`,
in source order. -/
def testKeywordList : List (List Char) :=
  ["test".toList, "expect".toList, "mock".toList, "stub".toList,
   "spy".toList, "fake".toList, "fixture".toList, "teardown".toList,
   "setup".toList]

/-- First alternative (in pattern order) that is a case-insensitive
prefix of the word run, returning its length. -/
def firstKeywordPrefix (run : List Char) : Option Nat :=
  (testKeywordList.find? (fun kw => isPrefixOfCI kw run)).map List.length

/-- `re.findall(r'\b(test|…|setup)\w*\b', text, re.IGNORECASE)`: the
leading `\b` forces every match to start at the beginning of a maximal
word-character run; `\w*\b` then extends the match to the end of that
run, so the capture is the run's prefix of the matched keyword's length
(original casing). Runs not starting with a keyword contain no match. -/
def scanTestKeywords : Nat → List Char → List (List Char)
  | 0, _ => []
  | _, [] => []
  | fuel + 1, c :: rest =>
    if isWordChar c then
      let run := (c :: rest).takeWhile isWordChar
      let rem := (c :: rest).drop run.length
      match firstKeywordPrefix run with
      | some k => run.take k :: scanTestKeywords fuel rem
      | none => scanTestKeywords fuel rem
    else scanTestKeywords fuel rest

/-- `re.findall(r'\$([a-zA-Z_]\w{2,})', text)`: a dollar sign followed by
a letter or underscore and at least two more word characters, captured
greedily. -/
def scanVariables : Nat → List Char → List (List Char)
  | 0, _ => []
  | _, [] => []
  | fuel + 1, c :: rest =>
    if c = '$' then
      let run := rest.takeWhile isWordChar
      if (match run with
          | r :: _ => (isAsciiLower r || isAsciiUpper r || r == '_') && run.length ≥ 3
          | [] => false) then
        run :: scanVariables fuel (rest.drop run.length)
      else scanVariables fuel rest
    else scanVariables fuel rest

/-- A character that is neither kind of quote (the `[^"\']` class). -/
def isNonQuote (c : Char) : Bool := c ≠ '"' && c ≠ '\''

/-- `re.findall(r'["\']([^"\']{3,})["\']', text)`: an opening quote of
either kind, at least three non-quote characters (greedy; the maximal
run must be followed by another quote of either kind), then the closing
quote. The scan resumes after the closing quote. -/
def scanStrings : Nat → List Char → List (List Char)
  | 0, _ => []
  | _, [] => []
  | fuel + 1, c :: rest =>
    if c = '"' ∨ c = '\'' then
      let run := rest.takeWhile isNonQuote
      let afterRun := rest.drop run.length
      if run.length ≥ 3 ∧ afterRun ≠ [] then
        run :: scanStrings fuel (afterRun.drop 1)
      else scanStrings fuel rest
    else scanStrings fuel rest

/-- `re.sub(r'([a-z])([A-Z])', r'\1 \2', token)`: a space is inserted at
every lowercase→uppercase adjacency (matches cannot overlap, and no
boundary is ever skipped because an uppercase character cannot open the
next boundary). -/
def insertCamelSpaces : List Char → List Char
  | [] => []
  | [a] => [a]
  | a :: b :: rest =>
    if isAsciiLower a && isAsciiUpper b then a :: ' ' :: insertCamelSpaces (b :: rest)
    else a :: insertCamelSpaces (b :: rest)

/-- Python `str.split()` with no argument: split on whitespace runs,
discarding empty pieces. -/
def pySplitWhitespace (l : List Char) : List (List Char) :=
  (l.splitOnP isSpaceChar).filter (· ≠ [])

/-- `re.sub(r'([a-z])([A-Z])', r'\1 \2', token).split()`. -/
def camelSplit (token : List Char) : List (List Char) :=
  pySplitWhitespace (insertCamelSpaces token)

/-- Python `token.split('_')` (keeps empty pieces). -/
def snakeSplit (token : List Char) : List (List Char) :=
  token.splitOn '_'

/-- The token post-processing loop of `PHPTokenizer._extract_tokens`:
emit the original token plus its camelCase and snake_case splits, then
drop empty and single-character tokens. -/
def processTokens (allTokens : List (List Char)) : List (List Char) :=
  (allTokens.flatMap fun token => token :: (camelSplit token ++ snakeSplit token)).filter
    (fun t => t.length > 1)

/-- `PHPTokenizer._extract_tokens`. -/
def extractTokens (text : List Char) : List (List Char) :=
  let function_names := scanDecl "function".toList text.length text
  let class_names := (scanDecl "class".toList text.length text).filter
    (fun name => ¬ matchesTestClassName name)
  let method_calls := scanMethodCalls text.length text
  let assertions := scanAssertions text.length text
  let test_keywords := scanTestKeywords text.length text
  let variableTokens := scanVariables text.length text
  let strings := scanStrings text.length text
  let all_tokens := function_names ++ class_names ++ method_calls ++ assertions
    ++ test_keywords ++ variableTokens ++ strings
  processTokens all_tokens

/-- The fixed stop-word set of `PHPTokenizer.__init__`. -/
def stopWords : List String :=
  ["the", "and", "or", "but", "in", "on", "at", "to", "for",
   "of", "with", "a", "an", "is", "it", "this", "that", "these",
   "those", "are", "was", "were", "been", "be", "have", "has",
   "had", "do", "does", "did", "will", "would", "should", "could",
   "can", "may", "might", "must", "shall", "as", "if", "when",
   "where", "why", "how", "what", "which", "who", "whom", "whose"]

/-- `PHPTokenizer.tokenize`: strip comments, extract tokens, lowercase
(unless disabled), and filter out stop words. -/
def tokenize (text : String) (lowercase : Bool) : List String :=
  let stripped := removeComments text.toList
  let tokens := extractTokens stripped
  let tokens := if lowercase then tokens.map (fun t => t.map Char.toLower) else tokens
  (tokens.map (fun l => String.mk l)).filter (fun t => ¬ stopWords.contains t)

/-- One greedy attempt of `([^/\\]+)(?:Test)?\.php$` at a fixed start
position: the group takes the maximal slash-free run, then backtracks;
at each group length the optional `Test` branch is tried first, then the
empty branch, each followed by the `\.php$` anchor. -/
def tryPhpAt (t : List Char) : Option (List Char) :=
  let r := t.takeWhile (fun c => c ≠ '/' && c ≠ '\\')
  let rec tryLen : Nat → Option (List Char)
    | 0 => none
    | k + 1 =>
      if t.drop (k + 1) = "Test.php".toList then some (t.take (k + 1))
      else if t.drop (k + 1) = ".php".toList then some (t.take (k + 1))
      else tryLen k
  tryLen r.length

/-- `re.search(r'([^/\\]+)(?:Test)?\.php$', s)`: leftmost position where
the greedy attempt succeeds. -/
def searchPhp : Nat → List Char → Option (List Char)
  | 0, _ => none
  | _, [] => none
  | fuel + 1, c :: rest =>
    match tryPhpAt (c :: rest) with
    | some g => some g
    | none => searchPhp fuel rest

/-- `re.search(marker + r'(\w+)$', s)` for the literal markers `::`, `#`,
`@`: leftmost position where the marker is followed by a nonempty
word-character run extending to the end of the string. -/
def searchMarkerEnd (marker : List Char) : Nat → List Char → Option (List Char)
  | 0, _ => none
  | _, [] => none
  | fuel + 1, c :: rest =>
    if marker.isPrefixOf (c :: rest) then
      let tail := (c :: rest).drop marker.length
      if tail ≠ [] ∧ tail.all isWordChar then some tail
      else searchMarkerEnd marker fuel rest
    else searchMarkerEnd marker fuel rest

/-- A separator of the character class `[/\\::#@]` in the fallback split
(the duplicated `:` adds nothing to the class). -/
def isPathSep (c : Char) : Bool :=
  c = '/' || c = '\\' || c = ':' || c = '#' || c = '@'

/-- `re.split(r'[/\\::#@]', s)`: split at every separator character,
keeping empty components (so the result is always nonempty). -/
def splitOnSeps : List Char → List (List Char)
  | [] => [[]]
  | c :: rest =>
    if isPathSep c then [] :: splitOnSeps rest
    else
      match splitOnSeps rest with
      | g :: gs => (c :: g) :: gs
      | [] => [[c]]

/-- `extract_test_name` (tokenizer.py lines 112-144): try the four
patterns in order, then fall back to the last component of the separator
split with a trailing `.php` stripped, returning `none` only when that
component is empty. -/
def extract_test_name (test_path : String) : Option String :=
  let s := test_path.toList
  match searchPhp s.length s with
  | some g => some (String.mk g)
  | none =>
  match searchMarkerEnd "::".toList s.length s with
  | some g => some (String.mk g)
  | none =>
  match searchMarkerEnd "#".toList s.length s with
  | some g => some (String.mk g)
  | none =>
  match searchMarkerEnd "@".toList s.length s with
  | some g => some (String.mk g)
  | none =>
    let components := splitOnSeps s
    let last := components.getLastD []
    let last := if ".php".toList.isSuffixOf last then last.take (last.length - 4) else last
    if last ≠ [] then some (String.mk last) else none

/-! ## src/ml/analysis/validation.py -/

/-- `ValidationConfig` with its dataclass defaults. -/
structure ValidationConfig where
  strict_mode : Bool := true
  allow_boundary_merging : Bool := false
  min_cluster_size : Nat := 2

/-- `SemanticValidator.opposition_pairs`, with each side's regex
alternation split into its literal alternatives (all alternatives
consist solely of word characters). -/
def opposition_pairs : List (List String × List String) :=
  [ (["success"], ["fail", "failure", "error", "exception"]),
    (["valid"], ["invalid"]),
    (["empty"], ["notempty", "not_empty"]),
    (["null"], ["notnull", "not_null"]),
    (["true"], ["false"]),
    (["found"], ["notfound", "not_found", "missing"]),
    (["exists"], ["not_exists", "doesnt_exist", "missing"]),
    (["authorized"], ["unauthorized", "forbidden"]),
    (["create", "created"], ["delete", "deleted", "destroy"]),
    (["with"], ["without"]),
    (["before"], ["after"]),
    (["ascending", "asc"], ["descending", "desc"]),
    (["min", "minimum"], ["max", "maximum"]),
    (["first"], ["last"]),
    (["single"], ["multiple", "many"]),
    (["enabled"], ["disabled"]),
    (["active"], ["inactive", "expired"]),
    (["online"], ["offline"]),
    (["cached", "cache_hit"], ["uncached", "cache_miss"]),
    (["sync", "synchronous"], ["async", "asynchronous"]) ]

/-- Maximal word-character runs of a string, left to right. Because every
alternative in an opposition pattern consists only of word characters,
`re.search(r'\b(alt|…)\b', s)` matches exactly when some maximal run
equals an alternative, and the captured group is that run. -/
def wordRuns : Nat → List Char → List (List Char)
  | 0, _ => []
  | _, [] => []
  | fuel + 1, c :: rest =>
    if isWordChar c then
      let run := (c :: rest).takeWhile isWordChar
      run :: wordRuns fuel ((c :: rest).drop run.length)
    else wordRuns fuel rest

/-- `re.search(r'\b(alts)\b', text)` for word-only alternatives: the
leftmost maximal word run equal to one of the alternatives. -/
def findWordAlt (alts : List String) (text : List Char) : Option String :=
  ((wordRuns text.length text).find? (fun run => alts.contains (String.mk run))).map
    String.mk

/-- Substring test (Python `in` / an unanchored `re.search` of a literal). -/
def containsSub (needle : List Char) : List Char → Bool
  | [] => needle.isEmpty
  | c :: rest => needle.isPrefixOf (c :: rest) || containsSub needle rest

/-- Suffix of `hay` after the leftmost occurrence of `needle`, if any. -/
def dropAfterFirst (needle : List Char) : List Char → Option (List Char)
  | [] => if needle = [] then some [] else none
  | c :: rest =>
    if needle.isPrefixOf (c :: rest) then some ((c :: rest).drop needle.length)
    else dropAfterFirst needle rest

/-- `re.search(a + '.*' + b, s)` for literal `a`, `b`: `a` occurs and `b`
occurs at or after the end of its leftmost occurrence. -/
def containsSeq (a b : List Char) (hay : List Char) : Bool :=
  match dropAfterFirst a hay with
  | some rem => containsSub b rem
  | none => false

/-- `re.search(r'throw|exception|expectexception', s)` (the third
alternative is subsumed by the second). -/
def matchesThrows (s : List Char) : Bool :=
  containsSub "throw".toList s || containsSub "exception".toList s
    || containsSub "expectexception".toList s

/-- `re.search(r'return.*null|null.*return', s)`. -/
def matchesReturnsNull (s : List Char) : Bool :=
  containsSeq "return".toList "null".toList s || containsSeq "null".toList "return".toList s

/-- `re.search(r'return.*empty|empty.*return', s)`. -/
def matchesReturnsEmpty (s : List Char) : Bool :=
  containsSeq "return".toList "empty".toList s || containsSeq "empty".toList "return".toList s

/-- `re.search(r'assert(ok|success|200)', s)`. -/
def matchesHttpSuccess (s : List Char) : Bool :=
  containsSub "assertok".toList s || containsSub "assertsuccess".toList s
    || containsSub "assert200".toList s

/-- `4\d\d` or `5\d\d` at the head of the list. -/
def headDigit45 : List Char → Bool
  | a :: b :: c :: _ => (a = '4' || a = '5') && b.isDigit && c.isDigit
  | _ => false

/-- `re.search(r'assert(error|fail|4\d\d|5\d\d)', s)`. -/
def matchesHttpError : List Char → Bool
  | [] => false
  | c :: rest =>
    if "assert".toList.isPrefixOf (c :: rest) then
      let r := (c :: rest).drop 6
      if "error".toList.isPrefixOf r || "fail".toList.isPrefixOf r || headDigit45 r then
        true
      else matchesHttpError rest
    else matchesHttpError rest

/-- Python dict assignment `intent[key] = v`: overwrite in place if the
key exists, otherwise append (insertion order preserved). -/
def setIntent (intent : List (String × Bool)) (k : String) (v : Bool) :
    List (String × Bool) :=
  if intent.any (fun p => p.1 = k) then
    intent.map (fun p => if p.1 = k then (k, v) else p)
  else intent ++ [(k, v)]

/-- `SemanticValidator.extract_test_intent` (the memoization cache has no
semantic effect). -/
def extract_test_intent (test_name : String) : List (String × Bool) :=
  let normalized := test_name.toList.map Char.toLower
  let intent := opposition_pairs.foldl
    (fun intent pn =>
      let intent := match findWordAlt pn.1 normalized with
        | some k => setIntent intent k true
        | none => intent
      match findWordAlt pn.2 normalized with
      | some k => setIntent intent k false
      | none => intent)
    []
  let intent := if matchesThrows normalized then setIntent intent "throws_exception" true
    else intent
  let intent := if matchesReturnsNull normalized then setIntent intent "returns_null" true
    else intent
  let intent := if matchesReturnsEmpty normalized then setIntent intent "returns_empty" true
    else intent
  let intent := if matchesHttpSuccess normalized then setIntent intent "http_success" true
    else intent
  if matchesHttpError normalized then setIntent intent "http_error" true else intent

/-- `intent.get(key)` coerced to a boolean (`None` is falsy). -/
def intentGet (intent : List (String × Bool)) (k : String) : Bool :=
  (intent.lookup k).getD false

/-- `SemanticValidator.tests_have_opposing_intents`. The Python loop
iterates over `set(intent1) & set(intent2)` in unspecified hash order;
this embedding iterates shared keys in `intent1` insertion order, which
decides only which conflicting key is reported first. -/
def tests_have_opposing_intents (config : ValidationConfig) (test1 test2 : String) :
    Bool × String :=
  let intent1 := extract_test_intent test1
  let intent2 := extract_test_intent test2
  match intent1.find? (fun p => match intent2.lookup p.1 with
    | some v2 => v2 ≠ p.2
    | none => false) with
  | some p => (true, "Opposing intents on " ++ p.1)
  | none =>
    if intentGet intent1 "throws_exception" && intentGet intent2 "http_success" then
      (true, "Exception test vs success test")
    else if intentGet intent1 "http_error" && intentGet intent2 "http_success" then
      (true, "Error assertion vs success assertion")
    else if config.strict_mode && !config.allow_boundary_merging then
      let boundary_terms := ["min", "max", "edge", "boundary", "limit"]
      let lower1 := test1.toList.map Char.toLower
      let lower2 := test2.toList.map Char.toLower
      let has_boundary1 := boundary_terms.any (fun t => containsSub t.toList lower1)
      let has_boundary2 := boundary_terms.any (fun t => containsSub t.toList lower2)
      if has_boundary1 && has_boundary2 && test1 ≠ test2 then
        (true, "Different boundary value tests")
      else (false, "")
    else (false, "")

/-! ## src/ml/analysis/redundancy.py -/

/-- `RedundancyLevel` enum. -/
inductive RedundancyLevel where
  | NONE
  | LOW
  | MODERATE
  | HIGH
  | VERY_HIGH
deriving DecidableEq, Repr

/-- Position of a level in the order none < low < moderate < high <
very_high. -/
def RedundancyLevel.rank : RedundancyLevel → Nat
  | .NONE => 0
  | .LOW => 1
  | .MODERATE => 2
  | .HIGH => 3
  | .VERY_HIGH => 4

/-- `RedundancyThresholds` dataclass; floats are modelled exactly as
rationals. -/
structure RedundancyThresholds where
  low : ℚ := 15 / 100
  moderate : ℚ := 25 / 100
  high : ℚ := 40 / 100
  very_high : ℚ := 60 / 100
deriving DecidableEq, Repr

/-- `RedundancyAnalyzer.classify_redundancy`: thresholds are tested from
highest to lowest. -/
def classify_redundancy (thresholds : RedundancyThresholds) (similarity_score : ℚ) :
    RedundancyLevel :=
  if similarity_score ≥ thresholds.very_high then .VERY_HIGH
  else if similarity_score ≥ thresholds.high then .HIGH
  else if similarity_score ≥ thresholds.moderate then .MODERATE
  else if similarity_score ≥ thresholds.low then .LOW
  else .NONE

/-! ## src/ml/core/normalization.py

Float vectors are modelled as lists of reals; numpy reductions become
list sums. -/

/-- Σ xᵢ² — the square of `np.linalg.norm(v)` for a 1-D vector. -/
def sumSq (v : List ℝ) : ℝ := (v.map (fun x => x * x)).sum

/-- `np.linalg.norm(v)` for a 1-D vector. -/
noncomputable def l2norm (v : List ℝ) : ℝ := Real.sqrt (sumSq v)

/-- `np.dot(v1, v2)` on 1-D vectors of equal length. -/
def dotList (v1 v2 : List ℝ) : ℝ := (List.zipWith (· * ·) v1 v2).sum

/-- The epsilon default of `l2_normalize` (`1e-12`). -/
noncomputable def l2NormalizeEps : ℝ := 1 / 10 ^ 12

/-- `l2_normalize(vector)` on a 1-D vector: divide by
`np.maximum(norm, epsilon)`. -/
noncomputable def l2_normalize (vector : List ℝ) : List ℝ :=
  let norm := max (l2norm vector) l2NormalizeEps
  vector.map (fun x => x / norm)

/-- `cosine_similarity(vector1, vector2)` (the inputs are already 1-D, so
flattening is the identity). -/
noncomputable def cosine_similarity (vector1 vector2 : List ℝ) : ℝ :=
  let dot_product := dotList vector1 vector2
  let norm1 := l2norm vector1
  let norm2 := l2norm vector2
  if norm1 = 0 ∨ norm2 = 0 then 0
  else dot_product / (norm1 * norm2)

/-- The result dictionary of `combined_similarity`. -/
structure CombinedSimilarity where
  semantic_similarity : ℝ
  coverage_similarity : ℝ
  combined_similarity : ℝ

/-- `combined_similarity(semantic_vec1, semantic_vec2, coverage_vec1,
coverage_vec2, semantic_weight, coverage_weight)`. -/
noncomputable def combined_similarity (semantic_vec1 semantic_vec2 coverage_vec1
    coverage_vec2 : List ℝ) (semantic_weight coverage_weight : ℝ) :
    CombinedSimilarity :=
  let semantic_sim := cosine_similarity semantic_vec1 semantic_vec2
  let coverage_sim := cosine_similarity coverage_vec1 coverage_vec2
  { semantic_similarity := semantic_sim
    coverage_similarity := coverage_sim
    combined_similarity := semantic_weight * semantic_sim + coverage_weight * coverage_sim }

/-! ## src/ml/core/features.py -/

/-- `FeatureCombiner.__init__` state (`total_dim` is stored as the sum of
the two dimensions). -/
structure FeatureCombiner where
  semantic_dim : Nat := 128
  coverage_dim : Nat := 512
  normalize : Bool := true

/-- The stored `self.total_dim = semantic_dim + coverage_dim`. -/
def FeatureCombiner.total_dim (fc : FeatureCombiner) : Nat :=
  fc.semantic_dim + fc.coverage_dim

/-- The per-test body of `FeatureCombiner.combine_features` (features.py
lines 57-76): validate both dimensions, concatenate, and L2-normalize if
requested. A dimension mismatch raises `ValueError` (the InvalidInput
kind), modelled as `Except.error`. -/
noncomputable def combine_features_single (fc : FeatureCombiner)
    (semantic_vec coverage_vec : List ℝ) : Except String (List ℝ) :=
  if semantic_vec.length ≠ fc.semantic_dim then
    .error "Semantic vector has wrong dimension"
  else if coverage_vec.length ≠ fc.coverage_dim then
    .error "Coverage vector has wrong dimension"
  else
    let combined := semantic_vec ++ coverage_vec
    .ok (if fc.normalize then l2_normalize combined else combined)

/-- `FeatureCombiner.split_features`: check the combined dimension, then
slice at `semantic_dim`. -/
def split_features (fc : FeatureCombiner) (combined_vector : List ℝ) :
    Except String (List ℝ × List ℝ) :=
  if combined_vector.length ≠ fc.total_dim then
    .error "Combined vector has wrong dimension"
  else
    .ok (combined_vector.take fc.semantic_dim, combined_vector.drop fc.semantic_dim)

/-! ## src/ml/core/fingerprints.py

Fingerprints are `float32` arrays whose entries are 0.0 or 1.0; their
arithmetic (sums of at most 512 zeros and ones, one division) is exact in
`float32`, so the rational model below computes the same values. -/

/-- `CoverageFingerprintGenerator.estimate_similarity`: Jaccard
similarity `sum(fp1 * fp2) / sum(np.maximum(fp1, fp2))`, 0 when the union
is empty. -/
def estimate_similarity (fingerprint1 fingerprint2 : List ℚ) : ℚ :=
  let intersection := (List.zipWith (· * ·) fingerprint1 fingerprint2).sum
  let union := (List.zipWith max fingerprint1 fingerprint2).sum
  if union = 0 then 0 else intersection / union

/-! ## src/ml/analysis/entropy.py -/

/-- The `is_binary` branch of `calculate_shannon_entropy`: bit-balance
entropy `−p₁·log2(p₁) − p₀·log2(p₀)`, 0 when either side is empty. -/
noncomputable def shannonBinaryBranch (vector : List ℝ) : ℝ :=
  let ones := vector.sum
  let zeros := (vector.length : ℝ) - ones
  if ones = 0 ∨ zeros = 0 then 0
  else
    let p_one := ones / (vector.length : ℝ)
    let p_zero := zeros / (vector.length : ℝ);
    -p_one * Real.logb 2 p_one - p_zero * Real.logb 2 p_zero

/-- The continuous branch of `calculate_shannon_entropy`: absolute
values normalized to a probability distribution, zero entries dropped
(the source drops them to avoid `log(0)`), Shannon entropy divided by
the maximum `log2(len)` when that is positive. -/
noncomputable def shannonContinuousBranch (vector : List ℝ) : ℝ :=
  let abs_vector := vector.map (fun x => |x|)
  if abs_vector.sum = 0 then 0
  else
    let prob_dist := abs_vector.map (fun x => x / abs_vector.sum)
    let pos := prob_dist.filter (fun p => decide (0 < p))
    let entropy := -((pos.map (fun p => p * Real.logb 2 p)).sum)
    let max_entropy := Real.logb 2 (vector.length : ℝ)
    if max_entropy > 0 then entropy / max_entropy else 0

/-- `EntropyAnalyzer.calculate_shannon_entropy`: empty-vector guard, then
the binary or continuous branch. -/
noncomputable def calculate_shannon_entropy (vector : List ℝ) (is_binary : Bool) : ℝ :=
  if vector.length = 0 then 0
  else if is_binary then shannonBinaryBranch vector
  else shannonContinuousBranch vector

/-! ## src/ml/core/vectorizers.py

The `fit`/`transform` protocol is embedded as explicit state passing:
`fit` returns the updated vectorizer state, `transform` returns
`Except` with the `NotFitted` `ValueError` message as the error case.
The sparse TF-IDF matrix is represented by its construction-order
`(row, column, value)` entries. -/

/-- `Counter` increment: bump an existing key in place or append a new
key (insertion order preserved, as in Python). -/
def counterBump (counts : List (String × Nat)) (k : String) : List (String × Nat) :=
  match counts with
  | [] => [(k, 1)]
  | (k2, c) :: rest =>
    if k2 = k then (k2, c + 1) :: rest else (k2, c) :: counterBump rest k

/-- `Counter(tokens)`. -/
def counterOf (tokens : List String) : List (String × Nat) :=
  tokens.foldl counterBump []

/-- Python `set(tokens)`, determinised to first-occurrence order (CPython
set iteration order is unspecified; downstream only document-frequency
counts and membership depend on it, and those are order-independent —
order influences only which tokens survive a frequency tie at the
`max_features` cutoff). -/
def uniqueTokens (tokens : List String) : List String :=
  tokens.foldl (fun acc t => if acc.contains t then acc else acc ++ [t]) []

/-- Lookup in a counter, defaulting to 0. -/
def countOf (counts : List (String × Nat)) (k : String) : Nat :=
  (counts.lookup k).getD 0

/-- `TFIDFVectorizer` state (`__init__` defaults; floats exactly as
rationals). -/
structure TFIDFVectorizer where
  max_features : Nat := 1000
  min_df : ℚ := 1 / 100
  max_df : ℚ := 95 / 100
  use_idf : Bool := true
  sublinear_tf : Bool := true
  vocabulary_ : Option (List (String × Nat)) := none
  idf_ : Option (List ℝ) := none
  document_count_ : Nat := 0

/-- A freshly constructed `TFIDFVectorizer()`. -/
def mkTFIDFVectorizer : TFIDFVectorizer := {}

/-- `TFIDFVectorizer.fit`: tokenize, count document frequencies, filter
by `[int(min_df·N), int(max_df·N)]`, keep the `max_features` most
frequent (stable descending sort, as `sorted(…, reverse=True)`), then
assign column indices in sorted token order and compute IDF weights
`ln(N/df) + 1`. -/
noncomputable def TFIDFVectorizer.fit (self : TFIDFVectorizer) (documents : List String) :
    TFIDFVectorizer :=
  let document_count := documents.length
  let tokenized_docs := documents.map (fun doc => tokenize doc true)
  let doc_freq := tokenized_docs.foldl
    (fun df tokens => (uniqueTokens tokens).foldl counterBump df) []
  let min_count := (self.min_df * document_count).floor.toNat
  let max_count := (self.max_df * document_count).floor.toNat
  let filtered_tokens := (doc_freq.filter
    (fun p => decide (min_count ≤ p.2 ∧ p.2 ≤ max_count))).map Prod.fst
  let filtered_tokens :=
    if filtered_tokens.length > self.max_features then
      (filtered_tokens.mergeSort
        (fun a b => countOf doc_freq b ≤ countOf doc_freq a)).take self.max_features
    else filtered_tokens
  let vocabulary := ((filtered_tokens.mergeSort (fun a b => a ≤ b)).enum).map
    (fun p => (p.2, p.1))
  let idf :=
    if self.use_idf then
      some (vocabulary.map
        (fun p => Real.log ((document_count : ℝ) / (countOf doc_freq p.1 : ℝ)) + 1))
    else self.idf_
  { self with
    document_count_ := document_count
    vocabulary_ := some vocabulary
    idf_ := idf }

/-- `TFIDFVectorizer.transform`: fails with the NotFitted `ValueError`
when `vocabulary_` is `None`; otherwise builds the sparse-matrix entries
in construction order. -/
noncomputable def TFIDFVectorizer.transform (self : TFIDFVectorizer)
    (documents : List String) : Except String (List (Nat × Nat × ℝ)) :=
  match self.vocabulary_ with
  | none => .error
      "TF-IDF vectorizer not fitted. Call fit() method before transform() or use fit_transform() instead."
  | some vocabulary =>
    let idf := self.idf_.getD []
    let entries := (documents.enum.map (fun di =>
      let tokens := tokenize di.2 true
      let tf_dict := counterOf tokens
      tf_dict.filterMap (fun tc =>
        match vocabulary.lookup tc.1 with
        | some feature_idx =>
          let tf : ℝ := if self.sublinear_tf then 1 + Real.log (tc.2 : ℝ) else (tc.2 : ℝ)
          let value := if self.use_idf then tf * (idf.getD feature_idx 0) else tf
          some (di.1, feature_idx, value)
        | none => none))).flatten
    .ok entries

/-- `TFIDFVectorizer.fit_transform`. -/
noncomputable def TFIDFVectorizer.fit_transform (self : TFIDFVectorizer)
    (documents : List String) : Except String (List (Nat × Nat × ℝ)) :=
  (self.fit documents).transform documents

/-- `SemanticVectorizer` state. -/
structure SemanticVectorizer where
  output_dim : Nat := 128
  max_features : Nat := 1000
  tfidf_vectorizer : TFIDFVectorizer
  projection_matrix_ : Option (List (List ℝ)) := none

/-- `SemanticVectorizer.__init__`: builds its own TF-IDF vectorizer with
the fixed sub-configuration. -/
def mkSemanticVectorizer (output_dim max_features : Nat) : SemanticVectorizer :=
  { output_dim := output_dim
    max_features := max_features
    tfidf_vectorizer :=
      { max_features := max_features
        min_df := 1 / 100
        max_df := 95 / 100
        use_idf := true
        sublinear_tf := true }
    projection_matrix_ := none }

/-- Column-wise L2 norm of a dense matrix (rows as lists). -/
noncomputable def columnNorm (m : List (List ℝ)) (j : Nat) : ℝ :=
  Real.sqrt ((m.map (fun row => (row.getD j 0) ^ 2)).sum)

/-- `matrix /= np.linalg.norm(matrix, axis=0, keepdims=True)`. -/
noncomputable def normalizeColumns (m : List (List ℝ)) : List (List ℝ) :=
  m.map (fun row => row.mapIdx (fun j x => x / columnNorm m j))

/-- `np.eye(n, m)`. -/
def eyeMatrix (n m : Nat) : List (List ℝ) :=
  (List.range n).map (fun i => (List.range m).map (fun j => if i = j then (1 : ℝ) else 0))

/-- `SemanticVectorizer.fit`. The seeded normal sampler
`np.random.RandomState(42).randn` is an external numeric routine,
modelled as the explicit parameter `randn` (its values never matter for
the fitted/not-fitted protocol). -/
noncomputable def SemanticVectorizer.fit (self : SemanticVectorizer)
    (randn : Nat → Nat → List (List ℝ)) (test_sources : List (String × String)) :
    SemanticVectorizer :=
  let documents := test_sources.map Prod.snd
  let tfidf := self.tfidf_vectorizer.fit documents
  let n_features := (tfidf.vocabulary_.getD []).length
  let projection :=
    if n_features > self.output_dim then normalizeColumns (randn n_features self.output_dim)
    else eyeMatrix n_features self.output_dim
  { self with tfidf_vectorizer := tfidf, projection_matrix_ := some projection }

/-- `SemanticVectorizer.transform`: fails with the NotFitted
`ValueError` when the projection matrix is not initialized; otherwise
TF-IDF-transforms (propagating that NotFitted error), projects, and
L2-normalizes each row (a zero-norm row is left as the zero vector, the
effect of `np.divide(…, where=norms != 0)` on an all-zero row). -/
noncomputable def SemanticVectorizer.transform (self : SemanticVectorizer)
    (test_sources : List (String × String)) : Except String (List (String × List ℝ)) :=
  match self.projection_matrix_ with
  | none => .error
      "Semantic vectorizer not fitted. The projection matrix is not initialized. Call fit() method before transform() or use fit_transform() instead."
  | some projection =>
    let test_names := test_sources.map Prod.fst
    let documents := test_sources.map Prod.snd
    match self.tfidf_vectorizer.transform documents with
    | .error e => .error e
    | .ok entries =>
      let vectors := (List.range documents.length).map (fun i =>
        (List.range self.output_dim).map (fun j =>
          ((entries.filter (fun t => decide (t.1 = i))).map
            (fun t => t.2.2 * ((projection.getD t.2.1 []).getD j 0))).sum))
      let normalized := vectors.map (fun row =>
        let norm := l2norm row
        if norm = 0 then row else row.map (fun x => x / norm))
      .ok (test_names.zip normalized)

/-! ## Claims -/

/-- C1: `extract_test_name` on the three inputs of the claim. The first
conjunct records what the code actually returns on
`"tests/Unit/AuthTest.php"`: the greedy group `([^/\\]+)` captures
`AuthTest` before the optional `(?:Test)?` is tried, so the result is
`some "AuthTest"`, not the `"Auth"` demanded by the claim, by the spec,
and by the repository's own unit test `test_tokenizer.py:125`. The other
two conjuncts confirm the remaining parts of the claim. -/
theorem extract_test_name_c1_eval :
    extract_test_name "tests/Unit/AuthTest.php" = some "AuthTest" ∧
    extract_test_name "UserTest::testCanLogin" = some "testCanLogin" ∧
    extract_test_name "" = none := by
  refine ⟨?_, ?_, ?_⟩ <;> decide

/-- C2: under the default configuration (strict mode on, boundary merging
off), `tests_have_opposing_intents` returns `(False, "")` on BOTH pairs
of the claim. The opposition patterns are wrapped in `\b…\b`, and an
underscore is a word character, so no pattern can match inside a
snake_case test name: the pair `test_login_success` / `test_login_failure`
is NOT flagged as opposing, contradicting the claim, the spec, and the
validator's own documented purpose. The second pair behaves as claimed. -/
theorem tests_have_opposing_intents_c2_eval :
    tests_have_opposing_intents {} "test_login_success" "test_login_failure"
      = (false, "") ∧
    tests_have_opposing_intents {} "test_login_success" "test_registration_success"
      = (false, "") := by
  refine ⟨?_, ?_⟩ <;> decide

/-- C4: classification boundaries under the default thresholds, plus the
highest-to-lowest evaluation order (any score at or above the very-high
threshold classifies very-high, and any score below the low threshold
classifies none). -/
theorem classify_redundancy_c4_boundaries :
    classify_redundancy {} (25 / 100) = .MODERATE ∧
    classify_redundancy {} (24999 / 100000) = .LOW ∧
    classify_redundancy {} (60 / 100) = .VERY_HIGH ∧
    (∀ s : ℚ, s < 15 / 100 → classify_redundancy {} s = .NONE) ∧
    (∀ s : ℚ, 60 / 100 ≤ s → classify_redundancy {} s = .VERY_HIGH) := by
  have hdef : ∀ s : ℚ, classify_redundancy {} s =
      if s ≥ 60 / 100 then .VERY_HIGH
      else if s ≥ 40 / 100 then .HIGH
      else if s ≥ 25 / 100 then .MODERATE
      else if s ≥ 15 / 100 then .LOW
      else .NONE := fun s => rfl
  refine ⟨?_, ?_, ?_, ?_, ?_⟩
  · rw [hdef]; norm_num
  · rw [hdef]; norm_num
  · rw [hdef]; norm_num
  · intro s hs
    have h1 : ¬ s ≥ (60 : ℚ) / 100 := by intro h; linarith
    have h2 : ¬ s ≥ (40 : ℚ) / 100 := by intro h; linarith
    have h3 : ¬ s ≥ (25 : ℚ) / 100 := by intro h; linarith
    have h4 : ¬ s ≥ (15 : ℚ) / 100 := by intro h; linarith
    rw [hdef, if_neg h1, if_neg h2, if_neg h3, if_neg h4]
  · intro s hs
    rw [hdef, if_pos hs]

/-- C4 witness: the universally quantified conjuncts applied at `0.1`
and `0.75`. -/
theorem classify_redundancy_c4_witness :
    classify_redundancy {} (1 / 10) = .NONE ∧
    classify_redundancy {} (75 / 100) = .VERY_HIGH :=
  ⟨classify_redundancy_c4_boundaries.2.2.2.1 (1 / 10) (by norm_num),
   classify_redundancy_c4_boundaries.2.2.2.2 (75 / 100) (by norm_num)⟩

/-- C10: `classify_redundancy` is monotone for every threshold
configuration: a larger similarity score never classifies to a strictly
lower redundancy level (levels ordered none < low < moderate < high <
very_high via `RedundancyLevel.rank`). -/
theorem classify_redundancy_c10_monotone (t : RedundancyThresholds) (s1 s2 : ℚ)
    (h : s1 ≤ s2) :
    (classify_redundancy t s1).rank ≤ (classify_redundancy t s2).rank := by
  simp only [classify_redundancy]
  split_ifs <;> simp_all [RedundancyLevel.rank] <;> linarith

/-- C10 witness: monotonicity applied at the default thresholds with
scores 0.2 ≤ 0.5. -/
theorem classify_redundancy_c10_witness :
    (classify_redundancy {} (2 / 10)).rank ≤ (classify_redundancy {} (5 / 10)).rank :=
  classify_redundancy_c10_monotone {} (2 / 10) (5 / 10) (by norm_num)

/-- C5: the result record of `combined_similarity` carries exactly the
two cosine similarities and their weighted combination; cosine of any
pair in which either vector has zero norm is 0; and the concrete default
instance of the claim evaluates to (1.0, 0.0, 0.7). -/
theorem combined_similarity_c5 :
    (∀ (sem1 sem2 cov1 cov2 : List ℝ) (ws wc : ℝ),
      (combined_similarity sem1 sem2 cov1 cov2 ws wc).semantic_similarity
        = cosine_similarity sem1 sem2 ∧
      (combined_similarity sem1 sem2 cov1 cov2 ws wc).coverage_similarity
        = cosine_similarity cov1 cov2 ∧
      (combined_similarity sem1 sem2 cov1 cov2 ws wc).combined_similarity
        = ws * cosine_similarity sem1 sem2 + wc * cosine_similarity cov1 cov2) ∧
    (∀ v1 v2 : List ℝ, l2norm v1 = 0 ∨ l2norm v2 = 0 → cosine_similarity v1 v2 = 0) ∧
    ((combined_similarity [1, 0, 0] [1, 0, 0] [0, 1, 0] [0, 0, 1]
        (7 / 10) (3 / 10)).semantic_similarity = 1 ∧
     (combined_similarity [1, 0, 0] [1, 0, 0] [0, 1, 0] [0, 0, 1]
        (7 / 10) (3 / 10)).coverage_similarity = 0 ∧
     (combined_similarity [1, 0, 0] [1, 0, 0] [0, 1, 0] [0, 0, 1]
        (7 / 10) (3 / 10)).combined_similarity = 7 / 10) := by
  have hzero : ∀ v1 v2 : List ℝ, l2norm v1 = 0 ∨ l2norm v2 = 0 →
      cosine_similarity v1 v2 = 0 := by
    intro v1 v2 h
    simp only [cosine_similarity]
    rw [if_pos h]
  have h100 : l2norm [(1 : ℝ), 0, 0] = 1 := by
    simp [l2norm, sumSq]
  have h010 : l2norm [(0 : ℝ), 1, 0] = 1 := by
    simp [l2norm, sumSq]
  have h001 : l2norm [(0 : ℝ), 0, 1] = 1 := by
    simp [l2norm, sumSq]
  have hc1 : cosine_similarity [(1 : ℝ), 0, 0] [(1 : ℝ), 0, 0] = 1 := by
    simp only [cosine_similarity, dotList, h100]
    norm_num
  have hc2 : cosine_similarity [(0 : ℝ), 1, 0] [(0 : ℝ), 0, 1] = 0 := by
    simp only [cosine_similarity, dotList, h010, h001]
    norm_num
  refine ⟨fun sem1 sem2 cov1 cov2 ws wc => ⟨rfl, rfl, rfl⟩, hzero, ?_, ?_, ?_⟩
  · exact hc1
  · exact hc2
  · show (7 : ℝ) / 10 * cosine_similarity [1, 0, 0] [1, 0, 0]
      + 3 / 10 * cosine_similarity [0, 1, 0] [0, 0, 1] = 7 / 10
    rw [hc1, hc2]
    norm_num

/-- C5 witness: the zero-norm conjunct applied at the concrete pair
`[0]`, `[1]`. -/
theorem combined_similarity_c5_witness :
    cosine_similarity [(0 : ℝ)] [(1 : ℝ)] = 0 :=
  combined_similarity_c5.2.1 [(0 : ℝ)] [(1 : ℝ)] (Or.inl (by simp [l2norm, sumSq]))

/-- C6: with normalization disabled, combining a 128-dim semantic vector
with a 512-dim coverage vector concatenates them, and `split_features`
recovers both exactly; any dimension mismatch on either input makes
`combine_features` fail with the InvalidInput (`ValueError`) error. -/
theorem feature_combiner_c6 :
    (∀ sem cov : List ℝ, sem.length = 128 → cov.length = 512 →
      combine_features_single ⟨128, 512, false⟩ sem cov = .ok (sem ++ cov) ∧
      split_features ⟨128, 512, false⟩ (sem ++ cov) = .ok (sem, cov)) ∧
    (∀ sem cov : List ℝ, sem.length ≠ 128 ∨ cov.length ≠ 512 →
      ∃ msg, combine_features_single ⟨128, 512, false⟩ sem cov = .error msg) := by
  constructor
  · intro sem cov h1 h2
    constructor
    · simp [combine_features_single, h1, h2]
    · have ht : (sem ++ cov).take 128 = sem := by
        rw [← h1]
        exact List.take_left sem cov
      have hd : (sem ++ cov).drop 128 = cov := by
        rw [← h1]
        exact List.drop_left sem cov
      simp [split_features, FeatureCombiner.total_dim, h1, h2, ht, hd]
  · intro sem cov h
    rcases h with h | h
    · exact ⟨"Semantic vector has wrong dimension",
        by simp [combine_features_single, h]⟩
    · by_cases hs : sem.length = 128
      · exact ⟨"Coverage vector has wrong dimension",
          by simp [combine_features_single, hs, h]⟩
      · exact ⟨"Semantic vector has wrong dimension",
          by simp [combine_features_single, hs]⟩

/-- C6 witness: the round trip at concrete vectors of the right
dimensions, and the error case at a 1-dim semantic vector. -/
theorem feature_combiner_c6_witness :
    split_features ⟨128, 512, false⟩ (List.replicate 128 (1 : ℝ) ++ List.replicate 512 (0 : ℝ))
      = .ok (List.replicate 128 (1 : ℝ), List.replicate 512 (0 : ℝ)) ∧
    (∃ msg, combine_features_single ⟨128, 512, false⟩ [(1 : ℝ)] (List.replicate 512 (0 : ℝ))
      = .error msg) :=
  ⟨(feature_combiner_c6.1 (List.replicate 128 (1 : ℝ)) (List.replicate 512 (0 : ℝ))
      (by simp) (by simp)).2,
   feature_combiner_c6.2 [(1 : ℝ)] (List.replicate 512 (0 : ℝ)) (Or.inl (by simp))⟩

/-- Pointwise facts about 0/1-valued lists, summed: the intersection sum
is nonnegative and bounded by the union sum, which is nonnegative. -/
theorem zipWith_mul_sum_le_max_sum (a : List ℚ) :
    ∀ b : List ℚ, (∀ x ∈ a, x = 0 ∨ x = 1) → (∀ x ∈ b, x = 0 ∨ x = 1) →
      0 ≤ (List.zipWith (· * ·) a b).sum ∧
      (List.zipWith (· * ·) a b).sum ≤ (List.zipWith max a b).sum ∧
      0 ≤ (List.zipWith max a b).sum := by
  induction a with
  | nil => intro b _ _; simp
  | cons x xs ih =>
    intro b ha hb
    cases b with
    | nil => simp
    | cons y ys =>
      have hx := ha x (by simp)
      have hy := hb y (by simp)
      obtain ⟨i1, i2, i3⟩ := ih ys (fun z hz => ha z (List.mem_cons_of_mem _ hz))
        (fun z hz => hb z (List.mem_cons_of_mem _ hz))
      refine ⟨?_, ?_, ?_⟩ <;>
        simp only [List.zipWith_cons_cons, List.sum_cons] <;>
        rcases hx with rfl | rfl <;> rcases hy with rfl | rfl <;>
        simp <;> linarith

/-- For a 0/1-valued list, elementwise self-product is the identity. -/
theorem zipWith_mul_self_eq (a : List ℚ) (ha : ∀ x ∈ a, x = 0 ∨ x = 1) :
    List.zipWith (· * ·) a a = a := by
  induction a with
  | nil => rfl
  | cons x xs ih =>
    have hx := ha x (by simp)
    simp only [List.zipWith_cons_cons]
    rw [ih (fun z hz => ha z (List.mem_cons_of_mem _ hz))]
    rcases hx with rfl | rfl <;> norm_num

/-- Elementwise self-max is the identity. -/
theorem zipWith_max_self_eq (a : List ℚ) : List.zipWith max a a = a := by
  induction a with
  | nil => rfl
  | cons x xs ih => simp [List.zipWith_cons_cons, ih]

/-- A 0/1-valued list with a nonzero entry has positive sum. -/
theorem sum_pos_of_one_mem (a : List ℚ) (ha : ∀ x ∈ a, x = 0 ∨ x = 1)
    (hx : ∃ x ∈ a, x ≠ 0) : 0 < a.sum := by
  induction a with
  | nil => simp at hx
  | cons x xs ih =>
    have hx0 := ha x (by simp)
    have hnn : 0 ≤ xs.sum := by
      have := zipWith_mul_sum_le_max_sum xs xs
        (fun z hz => ha z (List.mem_cons_of_mem _ hz))
        (fun z hz => ha z (List.mem_cons_of_mem _ hz))
      rw [zipWith_max_self_eq] at this
      exact this.2.2
    obtain ⟨z, hz, hzne⟩ := hx
    rcases List.mem_cons.mp hz with rfl | hz2
    · rcases hx0 with rfl | rfl
      · exact absurd rfl hzne
      · simp only [List.sum_cons]
        linarith
    · have hpos := ih (fun w hw => ha w (List.mem_cons_of_mem _ hw)) ⟨z, hz2, hzne⟩
      rcases hx0 with rfl | rfl <;> simp only [List.sum_cons] <;> linarith

/-- C7: for 512-dimensional 0/1-valued fingerprints, `estimate_similarity`
is symmetric, lies in `[0, 1]`, equals 1 on any nonzero fingerprint
paired with itself, and is 0 when the elementwise union sums to zero. -/
theorem estimate_similarity_c7 (a b : List ℚ)
    (hla : a.length = 512) (hlb : b.length = 512)
    (ha : ∀ x ∈ a, x = 0 ∨ x = 1) (hb : ∀ x ∈ b, x = 0 ∨ x = 1) :
    estimate_similarity a b = estimate_similarity b a ∧
    0 ≤ estimate_similarity a b ∧
    estimate_similarity a b ≤ 1 ∧
    ((∃ x ∈ a, x ≠ 0) → estimate_similarity a a = 1) ∧
    ((List.zipWith max a b).sum = 0 → estimate_similarity a b = 0) := by
  obtain ⟨i1, i2, i3⟩ := zipWith_mul_sum_le_max_sum a b ha hb
  refine ⟨?_, ?_, ?_, ?_, ?_⟩
  · simp only [estimate_similarity]
    rw [List.zipWith_comm_of_comm (· * ·) mul_comm a b,
      List.zipWith_comm_of_comm max max_comm a b]
  · simp only [estimate_similarity]
    split_ifs with h
    · exact le_rfl
    · exact div_nonneg i1 i3
  · simp only [estimate_similarity]
    split_ifs with h
    · norm_num
    · have hu : 0 < (List.zipWith max a b).sum := lt_of_le_of_ne i3 (Ne.symm h)
      exact (div_le_one hu).mpr i2
  · intro hnz
    have hsum : 0 < a.sum := sum_pos_of_one_mem a ha hnz
    simp only [estimate_similarity]
    rw [zipWith_mul_self_eq a ha, zipWith_max_self_eq a]
    rw [if_neg (by linarith)]
    exact div_self (by linarith)
  · intro hu
    simp only [estimate_similarity]
    rw [if_pos hu]

/-- C7 witness: the theorem applied to the concrete fingerprints
`1 :: 0⁵¹¹` and `0⁵¹²`. -/
theorem estimate_similarity_c7_witness :
    estimate_similarity ((1 : ℚ) :: List.replicate 511 0) (List.replicate 512 0)
      = estimate_similarity (List.replicate 512 0) ((1 : ℚ) :: List.replicate 511 0) ∧
    estimate_similarity ((1 : ℚ) :: List.replicate 511 0) ((1 : ℚ) :: List.replicate 511 0)
      = 1 := by
  have h := estimate_similarity_c7 ((1 : ℚ) :: List.replicate 511 0) (List.replicate 512 0)
    (by simp) (by simp)
    (by intro x hx
        rcases List.mem_cons.mp hx with rfl | hx2
        · exact Or.inr rfl
        · exact Or.inl (List.eq_of_mem_replicate hx2))
    (by intro x hx
        exact Or.inl (List.eq_of_mem_replicate hx))
  exact ⟨h.1, h.2.2.2.1 ⟨1, by simp, one_ne_zero⟩⟩

/-- C3 counterexample: the claim demands that the token `can` appear in
the output for the quoted identifier, but `can` is in the tokenizer's
stop-word list and is filtered out (the claim is self-contradictory:
its stop-word conjunct and its containment conjunct cannot both hold). -/
theorem tokenize_c3_counterexample :
    "can" ∈ stopWords ∧
    "can" ∉ tokenize "\"test_user_can_create_post\"" true := by
  refine ⟨by decide, by decide⟩

/-- C3 (amended): with lowercasing enabled no stop word ever appears in
`tokenize` output; tokenizing the quoted identifier
`"test_user_can_create_post"` yields at least the tokens `test`, `user`,
`create`, `post` (`can` being excluded as a stop word); and tokenizing
the empty string yields the empty token list. -/
theorem tokenize_c3_amended :
    (∀ (text t : String), t ∈ tokenize text true → t ∉ stopWords) ∧
    (∀ t ∈ (["test", "user", "create", "post"] : List String),
      t ∈ tokenize "\"test_user_can_create_post\"" true) ∧
    tokenize "" true = [] := by
  refine ⟨?_, by decide, by decide⟩
  intro text t ht hmem
  have h := List.of_mem_filter ht
  simp only [decide_eq_true_eq] at h
  exact h (by simpa using hmem)

/-- C3 witness: the stop-word exclusion applied to the token `user` of
the concrete tokenization. -/
theorem tokenize_c3_witness :
    "user" ∉ stopWords :=
  tokenize_c3_amended.1 "\"test_user_can_create_post\"" "user" (by decide)

/-- C9: calling `transform` on a freshly constructed `TFIDFVectorizer`
or `SemanticVectorizer` fails with the NotFitted error (the exact
`ValueError` message of the source); after any successful `fit`,
`transform` succeeds for both vectorizers. -/
theorem vectorizers_c9_not_fitted :
    (∀ docs : List String, mkTFIDFVectorizer.transform docs
      = .error "TF-IDF vectorizer not fitted. Call fit() method before transform() or use fit_transform() instead.") ∧
    (∀ (self : TFIDFVectorizer) (docs docs2 : List String),
      ∃ entries, (self.fit docs).transform docs2 = .ok entries) ∧
    (∀ (odim mfeat : Nat) (sources : List (String × String)),
      (mkSemanticVectorizer odim mfeat).transform sources
      = .error "Semantic vectorizer not fitted. The projection matrix is not initialized. Call fit() method before transform() or use fit_transform() instead.") ∧
    (∀ (odim mfeat : Nat) (randn : Nat → Nat → List (List ℝ))
      (sources sources2 : List (String × String)),
      ∃ out, ((mkSemanticVectorizer odim mfeat).fit randn sources).transform sources2
        = .ok out) := by
  refine ⟨fun docs => rfl, ?_, fun odim mfeat sources => rfl, ?_⟩
  · intro self docs docs2
    exact ⟨_, rfl⟩
  · intro odim mfeat randn sources sources2
    exact ⟨_, rfl⟩

/-- A 0/1-valued real list has a nonnegative sum. -/
theorem sum01_nonneg (v : List ℝ) (h : ∀ x ∈ v, x = 0 ∨ x = 1) : 0 ≤ v.sum := by
  induction v with
  | nil => simp
  | cons x xs ih =>
    have hx := h x (by simp)
    have ihs := ih (fun z hz => h z (List.mem_cons_of_mem _ hz))
    rcases hx with rfl | rfl <;> simp only [List.sum_cons] <;> linarith

/-- A 0/1-valued real list sums to at most its length. -/
theorem sum01_le_length (v : List ℝ) (h : ∀ x ∈ v, x = 0 ∨ x = 1) :
    v.sum ≤ (v.length : ℝ) := by
  induction v with
  | nil => simp
  | cons x xs ih =>
    have hx := h x (by simp)
    have ihs := ih (fun z hz => h z (List.mem_cons_of_mem _ hz))
    rcases hx with rfl | rfl <;>
      simp only [List.sum_cons, List.length_cons] <;> push_cast <;> linarith

/-- An all-ones real list sums to its length. -/
theorem sum_all_ones (v : List ℝ) (h : ∀ x ∈ v, x = 1) : v.sum = (v.length : ℝ) := by
  induction v with
  | nil => simp
  | cons x xs ih =>
    have hx := h x (by simp)
    have ihs := ih (fun z hz => h z (List.mem_cons_of_mem _ hz))
    subst hx
    simp only [List.sum_cons, List.length_cons, ihs]
    push_cast
    ring

/-- An all-zeros real list sums to zero. -/
theorem sum_all_zeros (v : List ℝ) (h : ∀ x ∈ v, x = 0) : v.sum = 0 := by
  induction v with
  | nil => simp
  | cons x xs ih =>
    have hx := h x (by simp)
    have ihs := ih (fun z hz => h z (List.mem_cons_of_mem _ hz))
    subst hx
    simp [ihs]

/-- Gibbs-style pointwise bound: for `p > 0` and `n > 0`,
`−p·ln p ≤ p·ln n + (1/n − p)` (from `ln x ≤ x − 1`). -/
theorem neg_mul_log_le (p n : ℝ) (hp : 0 < p) (hn : 0 < n) :
    -(p * Real.log p) ≤ p * Real.log n + (1 / n - p) := by
  have h := Real.log_le_sub_one_of_pos (show (0 : ℝ) < 1 / (n * p) by positivity)
  have hlog : Real.log (1 / (n * p)) = -(Real.log n + Real.log p) := by
    rw [one_div, Real.log_inv, Real.log_mul (ne_of_gt hn) (ne_of_gt hp)]
  rw [hlog] at h
  have h2 := mul_le_mul_of_nonneg_left h (le_of_lt hp)
  have h3 : p * (1 / (n * p) - 1) = 1 / n - p := by
    field_simp
    ring
  have h4 : p * -(Real.log n + Real.log p) = -(p * Real.log n) - p * Real.log p := by
    ring
  rw [h3, h4] at h2
  linarith

/-- Summed Gibbs bound over a list of positive reals. -/
theorem sum_neg_mul_log_le (l : List ℝ) (n : ℝ) (hn : 0 < n) (hl : ∀ x ∈ l, 0 < x) :
    -((l.map (fun p => p * Real.log p)).sum)
      ≤ l.sum * Real.log n + ((l.length : ℝ) / n - l.sum) := by
  induction l with
  | nil => simp
  | cons x xs ih =>
    have hx := hl x (by simp)
    have ihs := ih (fun z hz => hl z (List.mem_cons_of_mem _ hz))
    have hgx := neg_mul_log_le x n hx hn
    simp only [List.map_cons, List.sum_cons, List.length_cons]
    push_cast
    have hexp : (x + xs.sum) * Real.log n = x * Real.log n + xs.sum * Real.log n := by
      ring
    have hfrac : ((xs.length : ℝ) + 1) / n = (xs.length : ℝ) / n + 1 / n := by
      ring
    rw [hexp, hfrac]
    linarith

/-- Each term `p·log2 p` with `0 < p ≤ 1` is nonpositive, hence so is the
sum. -/
theorem sum_mul_logb_nonpos (l : List ℝ) (hl : ∀ x ∈ l, 0 < x ∧ x ≤ 1) :
    (l.map (fun p => p * Real.logb 2 p)).sum ≤ 0 := by
  induction l with
  | nil => simp
  | cons x xs ih =>
    obtain ⟨hx0, hx1⟩ := hl x (by simp)
    have ihs := ih (fun z hz => hl z (List.mem_cons_of_mem _ hz))
    have hlb : Real.logb 2 x ≤ 0 := Real.logb_nonpos (by norm_num) (le_of_lt hx0) hx1
    have hterm : x * Real.logb 2 x ≤ 0 :=
      mul_nonpos_of_nonneg_of_nonpos (le_of_lt hx0) hlb
    simp only [List.map_cons, List.sum_cons]
    linarith

/-- Base-2 entropy sums are natural-log entropy sums divided by `ln 2`. -/
theorem sum_mul_logb_eq (l : List ℝ) :
    (l.map (fun p => p * Real.logb 2 p)).sum
      = (l.map (fun p => p * Real.log p)).sum / Real.log 2 := by
  induction l with
  | nil => simp
  | cons x xs ih =>
    simp only [List.map_cons, List.sum_cons]
    rw [ih]
    simp only [Real.logb]
    ring

/-- Dropping nonpositive entries from a nonnegative list does not change
the sum (the dropped entries are all zero). -/
theorem sum_filter_pos_eq (l : List ℝ) (h : ∀ x ∈ l, 0 ≤ x) :
    ((l.filter (fun p => decide (0 < p))).sum) = l.sum := by
  induction l with
  | nil => rfl
  | cons x xs ih =>
    have hx := h x (by simp)
    have ihs := ih (fun z hz => h z (List.mem_cons_of_mem _ hz))
    by_cases hp : 0 < x
    · simp [List.filter_cons, hp, ihs]
    · have hx0 : x = 0 := le_antisymm (not_lt.mp hp) hx
      simp [List.filter_cons, hp, ihs, hx0]

/-- Distributing a sum over a constant divisor. -/
theorem sum_map_div_eq (l : List ℝ) (c : ℝ) :
    (l.map (fun x => x / c)).sum = l.sum / c := by
  induction l with
  | nil => simp
  | cons x xs ih => simp [ih, add_div]

/-- Branch selection for a non-empty vector with `is_binary = True`. -/
theorem calc_entropy_true_eq (v : List ℝ) (hlen : v.length ≠ 0) :
    calculate_shannon_entropy v true = shannonBinaryBranch v := by
  simp [calculate_shannon_entropy, hlen]

/-- Branch selection for a non-empty vector with `is_binary = False`. -/
theorem calc_entropy_false_eq (v : List ℝ) (hlen : v.length ≠ 0) :
    calculate_shannon_entropy v false = shannonContinuousBranch v := by
  simp [calculate_shannon_entropy, hlen]

/-- C8: binary Shannon entropy of any non-empty 0/1 vector lies in
`[0, 1]`, is exactly 0 for all-ones and all-zeros vectors, and is exactly
1 for an exact half split (`sum = c`, `length = 2c`); the continuous
normalized entropy of any non-empty vector lies in `[0, 1]`, and an
all-zero vector yields 0. -/
theorem shannon_entropy_c8 :
    (∀ v : List ℝ, v ≠ [] → (∀ x ∈ v, x = 0 ∨ x = 1) →
      0 ≤ calculate_shannon_entropy v true ∧ calculate_shannon_entropy v true ≤ 1) ∧
    (∀ v : List ℝ, v ≠ [] → (∀ x ∈ v, x = 1) →
      calculate_shannon_entropy v true = 0) ∧
    (∀ v : List ℝ, v ≠ [] → (∀ x ∈ v, x = 0) →
      calculate_shannon_entropy v true = 0) ∧
    (∀ (v : List ℝ) (c : ℕ), 0 < c → (∀ x ∈ v, x = 0 ∨ x = 1) →
      v.sum = (c : ℝ) → v.length = 2 * c →
      calculate_shannon_entropy v true = 1) ∧
    (∀ v : List ℝ, v ≠ [] →
      0 ≤ calculate_shannon_entropy v false ∧ calculate_shannon_entropy v false ≤ 1) ∧
    (∀ v : List ℝ, v ≠ [] → (∀ x ∈ v, x = 0) →
      calculate_shannon_entropy v false = 0) := by
  have hlog2 : (0 : ℝ) < Real.log 2 := Real.log_pos (by norm_num)
  refine ⟨?_, ?_, ?_, ?_, ?_, ?_⟩
  · -- bounds for the binary branch
    intro v hv h01
    have hlen : v.length ≠ 0 := fun h => hv (List.eq_nil_of_length_eq_zero h)
    have hn : (0 : ℝ) < (v.length : ℝ) := by
      exact_mod_cast Nat.pos_of_ne_zero hlen
    rw [calc_entropy_true_eq v hlen]
    simp only [shannonBinaryBranch]
    by_cases hz : v.sum = 0 ∨ (v.length : ℝ) - v.sum = 0
    · rw [if_pos hz]
      norm_num
    · rw [if_neg hz]
      push_neg at hz
      obtain ⟨hz1, hz2⟩ := hz
      have h0 : 0 ≤ v.sum := sum01_nonneg v h01
      have h1 : v.sum ≤ (v.length : ℝ) := sum01_le_length v h01
      have hone_pos : 0 < v.sum := lt_of_le_of_ne h0 (Ne.symm hz1)
      have hone_lt : v.sum < (v.length : ℝ) := lt_of_le_of_ne h1 (fun h => hz2 (by linarith))
      set p := v.sum / (v.length : ℝ) with hpdef
      have hp0 : 0 < p := div_pos hone_pos hn
      have hp1 : p < 1 := (div_lt_one hn).mpr hone_lt
      have hq : ((v.length : ℝ) - v.sum) / (v.length : ℝ) = 1 - p := by
        rw [hpdef, sub_div, div_self (ne_of_gt hn)]
      have hbe : -p * Real.logb 2 p - (1 - p) * Real.logb 2 (1 - p)
          = Real.binEntropy p / Real.log 2 := by
        simp only [Real.binEntropy]
        simp only [Real.logb, Real.log_inv]
        ring
      rw [hq, hbe]
      constructor
      · exact div_nonneg (Real.binEntropy_nonneg (le_of_lt hp0) (le_of_lt hp1))
          (le_of_lt hlog2)
      · rw [div_le_one hlog2]
        exact Real.binEntropy_le_log_two
  · -- all-ones vector
    intro v hv h1
    have hlen : v.length ≠ 0 := fun h => hv (List.eq_nil_of_length_eq_zero h)
    rw [calc_entropy_true_eq v hlen]
    simp only [shannonBinaryBranch]
    rw [if_pos (Or.inr (by rw [sum_all_ones v h1]; ring))]
  · -- all-zeros vector
    intro v hv h0
    have hlen : v.length ≠ 0 := fun h => hv (List.eq_nil_of_length_eq_zero h)
    rw [calc_entropy_true_eq v hlen]
    simp only [shannonBinaryBranch]
    rw [if_pos (Or.inl (sum_all_zeros v h0))]
  · -- exact half split
    intro v c hc h01 hsum hlen2
    have hlen : v.length ≠ 0 := by omega
    have hcr : (0 : ℝ) < (c : ℝ) := by exact_mod_cast hc
    have hlenr : (v.length : ℝ) = 2 * (c : ℝ) := by
      rw [hlen2]; push_cast; ring
    have hc0 : (c : ℝ) ≠ 0 := ne_of_gt hcr
    rw [calc_entropy_true_eq v hlen]
    simp only [shannonBinaryBranch]
    rw [if_neg (by rw [hsum, hlenr]; push_neg; constructor <;> intro h <;> nlinarith)]
    rw [hsum, hlenr]
    have hp : (c : ℝ) / (2 * (c : ℝ)) = 1 / 2 := by
      rw [mul_comm, div_mul_eq_div_div, div_self hc0]
    have h2c : (2 : ℝ) * (c : ℝ) - (c : ℝ) = (c : ℝ) := by ring
    rw [h2c, hp]
    have hhalf : Real.logb 2 (1 / 2) = -1 := by
      rw [one_div, Real.logb, Real.log_inv]
      field_simp
    rw [hhalf]
    ring
  · -- bounds for the continuous branch
    intro v hv
    have hlen : v.length ≠ 0 := fun h => hv (List.eq_nil_of_length_eq_zero h)
    have hn : (0 : ℝ) < (v.length : ℝ) := by
      exact_mod_cast Nat.pos_of_ne_zero hlen
    rw [calc_entropy_false_eq v hlen]
    simp only [shannonContinuousBranch]
    by_cases hS : (v.map (fun x => |x|)).sum = 0
    · rw [if_pos hS]
      norm_num
    · rw [if_neg hS]
      have hann : ∀ x ∈ v.map (fun x => |x|), 0 ≤ x := by
        intro x hx
        obtain ⟨y, _, rfl⟩ := List.mem_map.mp hx
        exact abs_nonneg y
      have hS0 : 0 ≤ (v.map (fun x => |x|)).sum := List.sum_nonneg hann
      have hSpos : 0 < (v.map (fun x => |x|)).sum := lt_of_le_of_ne hS0 (Ne.symm hS)
      set a := v.map (fun x => |x|) with ha
      set P := (a.map (fun x => x / a.sum)).filter (fun p => decide (0 < p)) with hP
      have hPpos : ∀ p ∈ P, 0 < p := by
        intro p hp
        have := List.of_mem_filter hp
        simpa using this
      have hPle1 : ∀ p ∈ P, p ≤ 1 := by
        intro p hp
        have hmem := List.mem_of_mem_filter hp
        obtain ⟨x, hx, rfl⟩ := List.mem_map.mp hmem
        have hxle : x ≤ a.sum := List.single_le_sum hann x hx
        exact div_le_one_of_le₀ hxle (le_of_lt hSpos)
      have hPsum : P.sum = 1 := by
        rw [hP, sum_filter_pos_eq _ (by
          intro x hx
          obtain ⟨y, hy, rfl⟩ := List.mem_map.mp hx
          exact div_nonneg (hann y hy) (le_of_lt hSpos))]
        rw [sum_map_div_eq, div_self (ne_of_gt hSpos)]
      have hPlen : (P.length : ℝ) ≤ (v.length : ℝ) := by
        have h1 : P.length ≤ (a.map (fun x => x / a.sum)).length :=
          List.length_filter_le _ _
        have h2 : (a.map (fun x => x / a.sum)).length = v.length := by
          simp [ha]
        exact_mod_cast h2 ▸ h1
      have hup : (P.map (fun p => p * Real.logb 2 p)).sum ≤ 0 :=
        sum_mul_logb_nonpos P (fun p hp => ⟨hPpos p hp, hPle1 p hp⟩)
      have hgibbs := sum_neg_mul_log_le P (v.length : ℝ) hn hPpos
      rw [hPsum] at hgibbs
      have hfrac : (P.length : ℝ) / (v.length : ℝ) ≤ 1 :=
        div_le_one_of_le₀ hPlen (le_of_lt hn)
      have hnat : -((P.map (fun p => p * Real.log p)).sum) ≤ Real.log (v.length : ℝ) := by
        linarith
      by_cases hmax : Real.logb 2 (v.length : ℝ) > 0
      · rw [if_pos hmax]
        constructor
        · exact div_nonneg (by linarith) (le_of_lt hmax)
        · rw [div_le_one hmax]
          have hconv : -((P.map (fun p => p * Real.logb 2 p)).sum)
              = -((P.map (fun p => p * Real.log p)).sum) / Real.log 2 := by
            rw [sum_mul_logb_eq]
            ring
          have hlogb : Real.logb 2 (v.length : ℝ)
              = Real.log (v.length : ℝ) / Real.log 2 := rfl
          rw [hconv, hlogb]
          exact (div_le_div_iff_of_pos_right hlog2).mpr hnat
      · rw [if_neg hmax]
        norm_num
  · -- continuous branch on an all-zero vector
    intro v hv h0
    have hlen : v.length ≠ 0 := fun h => hv (List.eq_nil_of_length_eq_zero h)
    rw [calc_entropy_false_eq v hlen]
    simp only [shannonContinuousBranch]
    rw [if_pos (by
      apply sum_all_zeros
      intro x hx
      obtain ⟨y, hy, rfl⟩ := List.mem_map.mp hx
      rw [h0 y hy]
      exact abs_zero)]

/-- C8 witness: the six conjuncts applied at the concrete vectors
`[1, 0]`, `[1, 1]`, `[0, 0]`, and `[3, 4]`. -/
theorem shannon_entropy_c8_witness :
    (0 ≤ calculate_shannon_entropy [1, 0] true ∧
      calculate_shannon_entropy [1, 0] true ≤ 1) ∧
    calculate_shannon_entropy [1, 1] true = 0 ∧
    calculate_shannon_entropy [0, 0] true = 0 ∧
    calculate_shannon_entropy [1, 0] true = 1 ∧
    (0 ≤ calculate_shannon_entropy [3, 4] false ∧
      calculate_shannon_entropy [3, 4] false ≤ 1) ∧
    calculate_shannon_entropy [0, 0] false = 0 := by
  have h01 : ∀ x ∈ ([1, 0] : List ℝ), x = 0 ∨ x = 1 := by
    intro x hx
    rcases List.mem_cons.mp hx with rfl | hx2
    · exact Or.inr rfl
    · exact Or.inl (by simpa using hx2)
  refine ⟨shannon_entropy_c8.1 [1, 0] (by simp) h01,
    shannon_entropy_c8.2.1 [1, 1] (by simp) (by intro x hx; simpa using hx),
    shannon_entropy_c8.2.2.1 [0, 0] (by simp) (by intro x hx; simpa using hx),
    shannon_entropy_c8.2.2.2.1 [1, 0] 1 (by norm_num) h01 (by norm_num) (by norm_num),
    shannon_entropy_c8.2.2.2.2.1 [3, 4] (by simp),
    shannon_entropy_c8.2.2.2.2.2 [0, 0] (by simp) (by intro x hx; simpa using hx)⟩

end Reductor
